import Mathlib

/-!
Shallow embedding of the streaming windowed-analysis core of
`music-analyzer-wasm-rs` (files `src/pitch_detector.rs` and
`src/audio_samples_processor.rs`).

Audio samples in the Rust source are `f32`; the per-window pitch
estimation algorithm is an external capability (the `pitch_detection`
crate, out of scope per the specification).  We therefore parametrise the
embedding by the sample type `α` (with a zero element, used for
zero-padding) and by an abstract estimator function.  All cursor and time
bookkeeping is over `Nat`, mirroring Rust `usize`; the partial `usize`
operations (subtraction that may underflow, division that may be by zero,
out-of-bounds indexing) are modelled with `Option`, where `none` stands
for the Rust panic.
-/

set_option autoImplicit false

/-- Rust source: `pub const MAX_WINDOW_SIZE: usize = 8192;` -/
def MAX_WINDOW_SIZE : Nat := 8192

/-- Rust `usize` subtraction `a - b`: panics (models as `none`) on underflow. -/
def usizeSub (a b : Nat) : Option Nat :=
  if b ≤ a then some (a - b) else none

/-- Rust `usize` division `a / b`: panics (models as `none`) when `b = 0`. -/
def usizeDiv (a b : Nat) : Option Nat :=
  if b = 0 then none else some (a / b)

/-- Rust slice expression `&l[0..n]`: panics (models as `none`) when `n > l.len()`. -/
def rustSlice {α : Type} (l : List α) (n : Nat) : Option (List α) :=
  if n ≤ l.length then some (l.take n) else none

/-- Clamped start offset used by `fill_chunk` in the Rust source:
`let start = match signal.len() > start { true => start, false => signal.len() }`. -/
def fillStart (sigLen start : Nat) : Nat :=
  if sigLen > start then start else sigLen

/-- Clamped stop offset used by `fill_chunk` in the Rust source:
`let stop = match signal.len() >= start + window { true => start + window, false => signal.len() }`. -/
def fillStop (sigLen start window : Nat) : Nat :=
  if sigLen ≥ fillStart sigLen start + window then fillStart sigLen start + window
  else sigLen

/-- Number of output positions that receive actual signal data in
`fill_chunk`: `stop - start` after clamping. -/
def coveredCount (sigLen start window : Nat) : Nat :=
  fillStop sigLen start window - fillStart sigLen start

/-- First loop of `fill_chunk`:
`for i in 0..stop - start { output[i] = signal[start + i]; }`.
Reads `signal[j]`, `signal[j+1]`, ... with checked indexing (`none` = Rust
index panic), overwriting the first `count` positions of `output`
(`none` when `output` is exhausted = out-of-bounds write).  Returns the
written prefix together with the untouched remainder of `output`. -/
def fillFrom {α : Type} (signal : List α) : Nat → Nat → List α → Option (List α × List α)
  | _, 0, out => some ([], out)
  | _, Nat.succ _, [] => none
  | j, Nat.succ c, _ :: rest =>
    match signal.get? j with
    | none => none
    | some v =>
      match fillFrom signal (j + 1) c rest with
      | none => none
      | some pr => some (v :: pr.1, pr.2)

/-- Rust source `fn fill_chunk(signal, start, window, output)`: copies
`signal[start..stop]` (with both offsets clamped to `signal.len()`) into
the front of `output`, then zero-fills the remaining positions
(`for i in stop - start..output.len() { output[i] = 0.0; }`, rendered as
mapping the untouched remainder to `0`). -/
def fill_chunk {α : Type} [Zero α] (signal : List α) (start window : Nat)
    (output : List α) : Option (List α) :=
  match fillFrom signal (fillStart signal.length start)
      (coveredCount signal.length start window) output with
  | none => none
  | some pr => some (pr.1 ++ pr.2.map (fun _ => (0 : α)))

/-- Pure description of the buffer produced by a successful `fill_chunk`
call: the covered slice of the signal followed by zeros up to `outLen`. -/
def chunkContents {α : Type} [Zero α] (signal : List α) (start window outLen : Nat) :
    List α :=
  ((signal.drop (fillStart signal.length start)).take (coveredCount signal.length start window))
    ++ List.replicate (outLen - coveredCount signal.length start window) (0 : α)

/-- Rust source `struct Params`.  The two `f32` thresholds (`0.25` and
`0.6` in `make_params`) are carried abstractly at type `α`. -/
structure Params (α : Type) where
  sample_rate : Nat
  window : Nat
  padding : Nat
  power_threshold : α
  clarity_threshold : α
  deriving DecidableEq

/-- Rust source `fn make_params(window)`; the concrete `f32` threshold
literals are supplied by the caller since `α` is abstract. -/
def make_params {α : Type} (window : Nat) (power_threshold clarity_threshold : α) :
    Params α :=
  { window := window
    sample_rate := 48000
    padding := window / 2
    power_threshold := power_threshold
    clarity_threshold := clarity_threshold }

/-- Result type of the external estimator capability (the
`pitch_detection` crate's per-window pitch value). -/
structure EstPitch (α : Type) where
  frequency : α
  clarity : α
  deriving DecidableEq

/-- The pluggable estimator capability:
`detector.get_pitch(window, sample_rate, power_threshold, clarity_threshold, history)`.
The `history` argument is always `None` in the source (the `history`
field is initialised to `None` and never written). -/
def PitchEstimator (α : Type) : Type :=
  List α → Nat → α → α → Option Unit → Option (EstPitch α)

/-- Rust source `struct Pitch`. -/
structure Pitch (α : Type) where
  t : Nat
  frequency : α
  clarity : α
  onset : Bool
  deriving DecidableEq

/-- State of the Rust `struct PitchDetector`.  The boxed `dyn
PitchDetector` trait object is modelled as the explicit `PitchEstimator`
argument of the operations below; `history` is the (always-`None`)
`PitchDetectorHistory` field. -/
structure PitchDetectorState (α : Type) where
  params : Params α
  time_of_first_sample : Nat
  time_of_next_unprocessed_sample : Nat
  current_pitch : Option α
  audio_samples : List α
  history : Option Unit
  deriving DecidableEq

/-- Error taxonomy of the detector (`panic!` sites in the Rust source). -/
inductive DetectorError
  | insufficientSamples (got required : Nat)
  | windowTooLarge (window maxWindow : Nat)
  deriving DecidableEq

/-- Rust source `PitchDetector::new`: panics (models as `none`) when the
window exceeds `MAX_WINDOW_SIZE`; otherwise all cursors start at 0, no
current pitch, no samples. -/
def PitchDetector.new {α : Type} (params : Params α) : Option (PitchDetectorState α) :=
  if params.window > MAX_WINDOW_SIZE then none
  else some
    { params := params
      time_of_first_sample := 0
      time_of_next_unprocessed_sample := 0
      current_pitch := none
      audio_samples := []
      history := none }

/-- Rust source `PitchDetector::set_audio_samples`: the length check
panics before any field is written, so the error case returns the state
unchanged. -/
def set_audio_samples {α : Type} (s : PitchDetectorState α) (time_of_first_sample : Nat)
    (audio_samples : List α) : PitchDetectorState α × Option DetectorError :=
  if audio_samples.length < s.params.window then
    (s, some (.insufficientSamples audio_samples.length s.params.window))
  else
    ({ s with
        time_of_first_sample := time_of_first_sample
        time_of_next_unprocessed_sample :=
          if time_of_first_sample > s.time_of_next_unprocessed_sample then
            time_of_first_sample
          else s.time_of_next_unprocessed_sample
        audio_samples := audio_samples }, none)

/-- Rust source `PitchDetector::index_of_next_unprocessed_sample`
(`usize` subtraction, checked). -/
def index_of_next_unprocessed_sample {α : Type} (s : PitchDetectorState α) : Option Nat :=
  usizeSub s.time_of_next_unprocessed_sample s.time_of_first_sample

/-- Loop body of `PitchDetector::pitches_vec` (`for i in 0..num_windows`),
recursing on the number of remaining windows `n` with the current window
index `i`, the running cursor (`self.time_of_next_unprocessed_sample`)
and the running `current_pitch`.  Each iteration fills the scratch chunk,
invokes the estimator on `&chunk[0..window]`, advances the cursor by
`delta` and, on a confident pitch, appends
`Pitch { t: cursor_after_advance + index, .., onset: current_pitch.is_none() }`. -/
def drainLoop {α : Type} [Zero α] (est : PitchEstimator α) (p : Params α) (samples : List α)
    (idx0 delta : Nat) :
    Nat → Nat → Nat → Option α → Option (List (Pitch α) × Nat × Option α)
  | 0, _, cursor, cp => some ([], cursor, cp)
  | Nat.succ n, i, cursor, cp =>
    match fill_chunk samples (i * delta + idx0) p.window
        (List.replicate MAX_WINDOW_SIZE (0 : α)) with
    | none => none
    | some chunk =>
      match rustSlice chunk p.window with
      | none => none
      | some windowSlice =>
        match est windowSlice p.sample_rate p.power_threshold p.clarity_threshold none with
        | some q =>
          match drainLoop est p samples idx0 delta n (i + 1) (cursor + delta)
              (some q.frequency) with
          | none => none
          | some r =>
            some ({ t := cursor + delta + (i * delta + idx0)
                    frequency := q.frequency
                    clarity := q.clarity
                    onset := cp.isNone } :: r.1, r.2)
        | none => drainLoop est p samples idx0 delta n (i + 1) (cursor + delta) none

/-- Rust source `PitchDetector::pitches_vec`, with the detector trait
object passed as `est`.  `none` models a panic (checked `usize`
subtraction/division and indexing). -/
def pitches_vec {α : Type} [Zero α] (est : PitchEstimator α) (s : PitchDetectorState α) :
    Option (List (Pitch α) × PitchDetectorState α) :=
  if s.audio_samples.length < s.params.window then some ([], s)
  else
    match index_of_next_unprocessed_sample s with
    | none => none
    | some idx =>
      match usizeSub s.audio_samples.length idx with
      | none => none
      | some num_unprocessed =>
        if num_unprocessed < s.params.window then some ([], s)
        else
          match usizeDiv (num_unprocessed - s.params.window) (s.params.window / 4) with
          | none => none
          | some num_windows =>
            if num_windows = 0 then some ([], s)
            else
              match drainLoop est s.params s.audio_samples idx (s.params.window / 4)
                  num_windows 0
                  s.time_of_next_unprocessed_sample s.current_pitch with
              | none => none
              | some r =>
                some (r.1, { s with
                  time_of_next_unprocessed_sample := r.2.1
                  current_pitch := r.2.2 })

/-- Rust source `struct PitchesResult`: the error constructor carries the
code string together with the two numbers (`required`, `available`)
interpolated into the error message by `pitches()`. -/
inductive PitchesResult (α : Type)
  | fromError (code : String) (required available : Nat)
  | success (pitches : List (Pitch α))
  deriving DecidableEq

/-- Rust source `PitchDetector::pitches`. -/
def pitches {α : Type} [Zero α] (est : PitchEstimator α) (s : PitchDetectorState α) :
    Option (PitchesResult α × PitchDetectorState α) :=
  if s.audio_samples.length < s.params.window then
    some (.fromError "not_enough_samples" s.params.window s.audio_samples.length, s)
  else
    (pitches_vec est s).map (fun r => (.success r.1, r.2))

/-- Modelled from the spec: the ring buffer underlying `SampleBuffer` is
the external `circular_queue` crate (not part of this repository's
sources).  Per the specification's ring semantics, a push at capacity
silently evicts the oldest element and iteration yields elements
most-recent-first.  `items` is kept most-recent-first, truncated to
`capacity`. -/
structure CircularQueue (β : Type) where
  capacity : Nat
  items : List β
  deriving DecidableEq

/-- Modelled from the spec: `CircularQueue::with_capacity`. -/
def CircularQueue.withCapacity (β : Type) (c : Nat) : CircularQueue β :=
  { capacity := c, items := [] }

/-- Modelled from the spec: `CircularQueue::push` keeps the most recent
`capacity` elements, evicting the oldest when full; it never fails. -/
def CircularQueue.push {β : Type} (q : CircularQueue β) (x : β) : CircularQueue β :=
  { capacity := q.capacity, items := (x :: q.items).take q.capacity }

/-- Modelled from the spec: `CircularQueue::len`. -/
def CircularQueue.size {β : Type} (q : CircularQueue β) : Nat :=
  q.items.length

/-- Modelled from the spec: `queue.iter().rev()` — the crate's `iter` is
most-recent-first, so the reversed iterator is oldest-first. -/
def CircularQueue.iterOldestFirst {β : Type} (q : CircularQueue β) : List β :=
  q.items.reverse

/-- Rust source: `const AUDIO_SAMPLES_PER_CHUNK: usize = 128;` -/
def AUDIO_SAMPLES_PER_CHUNK : Nat := 128

/-- Rust source: `const MIN_CHUNKS_FOR_ANALYSIS: usize = MAX_WINDOW_SIZE * 2 / AUDIO_SAMPLES_PER_CHUNK;` -/
def MIN_CHUNKS_FOR_ANALYSIS : Nat := MAX_WINDOW_SIZE * 2 / AUDIO_SAMPLES_PER_CHUNK

/-- State of the Rust `struct AudioSamplesProcessor`. -/
structure AudioSamplesProcessorState (α : Type) where
  chunk_size : Nat
  max_stored_chunks : Nat
  time_of_last_added_sample : Nat
  recent_audio_sample_f32s : CircularQueue (List α)
  deriving DecidableEq

/-- Error reported by `AudioSamplesProcessor::add_samples_chunk`'s
`panic!` when the pushed chunk has the wrong size. -/
inductive ProcessorError
  | chunkSizeMismatch (required got : Nat)
  deriving DecidableEq

/-- Rust source `AudioSamplesProcessor::new`. -/
def AudioSamplesProcessor.new (α : Type) : AudioSamplesProcessorState α :=
  { chunk_size := AUDIO_SAMPLES_PER_CHUNK
    max_stored_chunks := MIN_CHUNKS_FOR_ANALYSIS
    time_of_last_added_sample := 0
    recent_audio_sample_f32s := CircularQueue.withCapacity (List α) MIN_CHUNKS_FOR_ANALYSIS }

/-- Rust source `AudioSamplesProcessor::add_samples_chunk`: the size check
panics before any field is written, so the error case returns the state
unchanged. -/
def add_samples_chunk {α : Type} (s : AudioSamplesProcessorState α) (chunk : List α) :
    AudioSamplesProcessorState α × Option ProcessorError :=
  if chunk.length ≠ s.chunk_size then
    (s, some (.chunkSizeMismatch s.chunk_size chunk.length))
  else
    ({ s with
        time_of_last_added_sample := s.time_of_last_added_sample + s.chunk_size
        recent_audio_sample_f32s := s.recent_audio_sample_f32s.push chunk }, none)

/-- Rust source `AudioSamplesProcessor::has_sufficient_samples`. -/
def has_sufficient_samples {α : Type} (s : AudioSamplesProcessorState α) : Bool :=
  s.max_stored_chunks ≤ s.recent_audio_sample_f32s.size

/-- Rust source `AudioSamplesProcessor::get_time_of_first_sample`
(`usize` subtraction, checked). -/
def get_time_of_first_sample {α : Type} (s : AudioSamplesProcessorState α) : Option Nat :=
  usizeSub s.time_of_last_added_sample (s.recent_audio_sample_f32s.size * s.chunk_size)

/-- Rust source `AudioSamplesProcessor::get_latest_samples`:
`iter().rev().flat_map(..)` — the stored chunks oldest-first, flattened. -/
def get_latest_samples {α : Type} (s : AudioSamplesProcessorState α) : List α :=
  s.recent_audio_sample_f32s.iterOldestFirst.flatten

/-- Sequence of `add_samples_chunk` calls; `none` as soon as one call
reports an error (i.e. the Rust program would have panicked). -/
def pushAll {α : Type} (s : AudioSamplesProcessorState α) :
    List (List α) → Option (AudioSamplesProcessorState α)
  | [] => some s
  | c :: cs =>
    match add_samples_chunk s c with
    | (s2, none) => pushAll s2 cs
    | (_, some _) => none

/-- Length of the yet-unanalyzed suffix of the current view:
`view_len - (cursor - view_start)` (the quantity the spec calls
`unprocessed_len`). -/
def unprocessedLen {α : Type} (s : PitchDetectorState α) : Nat :=
  s.audio_samples.length -
    (s.time_of_next_unprocessed_sample - s.time_of_first_sample)

/-- Hop between consecutive analysis windows: `window_size / 4`
(`delta` in the Rust source). -/
def hopSize {α : Type} (s : PitchDetectorState α) : Nat :=
  s.params.window / 4

/-- Number of windows a `pitches_vec` call analyzes:
`(unprocessed_len - window) / delta` (`num_windows` in the Rust source). -/
def numWindowsOf {α : Type} (s : PitchDetectorState α) : Nat :=
  (unprocessedLen s - s.params.window) / hopSize s

/-- Window actually handed to the estimator for window index `i`:
the first `window` entries of the scratch chunk after `fill_chunk`. -/
def windowArg {α : Type} [Zero α] (samples : List α) (window idx0 delta i : Nat) :
    List α :=
  (chunkContents samples (i * delta + idx0) window MAX_WINDOW_SIZE).take window

theorem fillStart_le (sigLen start : Nat) : fillStart sigLen start ≤ sigLen := by
  unfold fillStart; split_ifs <;> omega

theorem fillStop_le (sigLen start window : Nat) :
    fillStop sigLen start window ≤ sigLen := by
  unfold fillStop fillStart; split_ifs <;> omega

theorem fillStart_le_fillStop (sigLen start window : Nat) :
    fillStart sigLen start ≤ fillStop sigLen start window := by
  unfold fillStop fillStart; split_ifs <;> omega

theorem coveredCount_le_window (sigLen start window : Nat) :
    coveredCount sigLen start window ≤ window := by
  unfold coveredCount fillStop fillStart; split_ifs <;> omega

theorem fillFrom_eq {α : Type} (signal : List α) (count : Nat) :
    ∀ (j : Nat) (out : List α), j + count ≤ signal.length → count ≤ out.length →
      fillFrom signal j count out =
        some ((signal.drop j).take count, out.drop count) := by
  induction count with
  | zero => intro j out _ _; simp [fillFrom]
  | succ c ih =>
    intro j out h1 h2
    cases out with
    | nil => simp at h2
    | cons v rest =>
      have hj : j < signal.length := by omega
      have hdrop : signal.drop j = signal.get ⟨j, hj⟩ :: signal.drop (j + 1) := by
        simpa using List.drop_eq_getElem_cons hj
      have hstep : fillFrom signal j (c + 1) (v :: rest) =
          match signal.get? j with
          | none => none
          | some w =>
            match fillFrom signal (j + 1) c rest with
            | none => none
            | some pr => some (w :: pr.1, pr.2) := rfl
      rw [hstep, List.get?_eq_get hj,
        ih (j + 1) rest (by omega) (by simpa using h2), hdrop]
      rfl

theorem fill_chunk_eq {α : Type} [Zero α] (signal : List α) (start window : Nat)
    (output : List α) (h : window ≤ output.length) :
    fill_chunk signal start window output =
      some (chunkContents signal start window output.length) := by
  have hle := fillStart_le_fillStop signal.length start window
  have hstop := fillStop_le signal.length start window
  have hcov := coveredCount_le_window signal.length start window
  unfold fill_chunk chunkContents
  rw [fillFrom_eq signal _ _ output (by unfold coveredCount; omega) (by omega)]
  have hmap : (output.drop (coveredCount signal.length start window)).map
      (fun _ : α => (0 : α)) =
      List.replicate (output.length - coveredCount signal.length start window) (0 : α) := by
    rw [show (fun _ : α => (0 : α)) = Function.const α (0 : α) from rfl,
      List.map_const, List.length_drop]
  simp [hmap]

theorem chunkContents_length {α : Type} [Zero α] (signal : List α)
    (start window outLen : Nat) (h : window ≤ outLen) :
    (chunkContents signal start window outLen).length = outLen := by
  have hle := fillStart_le_fillStop signal.length start window
  have hstop := fillStop_le signal.length start window
  have hcov := coveredCount_le_window signal.length start window
  have hcov2 : coveredCount signal.length start window ≤
      signal.length - fillStart signal.length start := by
    unfold coveredCount; omega
  simp only [chunkContents, List.length_append, List.length_take, List.length_drop,
    List.length_replicate]
  omega

theorem drainLoop_step {α : Type} [Zero α] (est : PitchEstimator α) (p : Params α)
    (samples : List α) (idx0 delta n i cursor : Nat) (cp : Option α)
    (hW : p.window ≤ MAX_WINDOW_SIZE) :
    drainLoop est p samples idx0 delta (n + 1) i cursor cp =
      match est (windowArg samples p.window idx0 delta i) p.sample_rate
          p.power_threshold p.clarity_threshold none with
      | some q =>
        (drainLoop est p samples idx0 delta n (i + 1) (cursor + delta)
            (some q.frequency)).map
          (fun r => ({ t := cursor + delta + (i * delta + idx0)
                       frequency := q.frequency
                       clarity := q.clarity
                       onset := cp.isNone } :: r.1, r.2))
      | none => drainLoop est p samples idx0 delta n (i + 1) (cursor + delta) none := by
  have hlen : p.window ≤ (List.replicate MAX_WINDOW_SIZE (0 : α)).length := by
    simpa using hW
  have hfill := fill_chunk_eq samples (i * delta + idx0) p.window
    (List.replicate MAX_WINDOW_SIZE (0 : α)) hlen
  rw [List.length_replicate] at hfill
  have hclen : (chunkContents samples (i * delta + idx0) p.window
      MAX_WINDOW_SIZE).length = MAX_WINDOW_SIZE :=
    chunkContents_length _ _ _ _ hW
  have hslice : rustSlice (chunkContents samples (i * delta + idx0) p.window
      MAX_WINDOW_SIZE) p.window = some (windowArg samples p.window idx0 delta i) := by
    unfold rustSlice windowArg
    rw [hclen, if_pos hW]
  have hstep : drainLoop est p samples idx0 delta (n + 1) i cursor cp =
      match fill_chunk samples (i * delta + idx0) p.window
          (List.replicate MAX_WINDOW_SIZE (0 : α)) with
      | none => none
      | some chunk =>
        match rustSlice chunk p.window with
        | none => none
        | some windowSlice =>
          match est windowSlice p.sample_rate p.power_threshold p.clarity_threshold none with
          | some q =>
            match drainLoop est p samples idx0 delta n (i + 1) (cursor + delta)
                (some q.frequency) with
            | none => none
            | some r =>
              some ({ t := cursor + delta + (i * delta + idx0)
                      frequency := q.frequency
                      clarity := q.clarity
                      onset := cp.isNone } :: r.1, r.2)
          | none => drainLoop est p samples idx0 delta n (i + 1) (cursor + delta) none := rfl
  rw [hstep, hfill]
  simp only [hslice]
  cases hE : est (windowArg samples p.window idx0 delta i) p.sample_rate
      p.power_threshold p.clarity_threshold none with
  | none => rfl
  | some q =>
    dsimp only
    cases hR : drainLoop est p samples idx0 delta n (i + 1) (cursor + delta)
        (some q.frequency) with
    | none => rfl
    | some r => rfl

theorem drainLoop_cursor {α : Type} [Zero α] (est : PitchEstimator α) (p : Params α)
    (samples : List α) (idx0 delta : Nat) :
    ∀ (n i cursor : Nat) (cp : Option α) (r : List (Pitch α) × Nat × Option α),
      drainLoop est p samples idx0 delta n i cursor cp = some r →
      r.2.1 = cursor + n * delta := by
  intro n
  induction n with
  | zero =>
    intro i cursor cp r h
    injection h with h
    subst h
    simp
  | succ n ih =>
    intro i cursor cp r h
    have hexp : (n + 1) * delta = n * delta + delta := by ring
    unfold drainLoop at h
    split at h
    · exact absurd h (by simp)
    · split at h
      · exact absurd h (by simp)
      · split at h
        · split at h
          · exact absurd h (by simp)
          · rename_i r' heq
            injection h with h
            subst h
            have := ih (i + 1) (cursor + delta) _ r' heq
            simp only []
            omega
        · have := ih (i + 1) (cursor + delta) none r h
          omega

theorem drainLoop_len {α : Type} [Zero α] (est : PitchEstimator α) (p : Params α)
    (samples : List α) (idx0 delta : Nat) :
    ∀ (n i cursor : Nat) (cp : Option α) (r : List (Pitch α) × Nat × Option α),
      drainLoop est p samples idx0 delta n i cursor cp = some r →
      r.1.length ≤ n := by
  intro n
  induction n with
  | zero =>
    intro i cursor cp r h
    injection h with h
    subst h
    simp
  | succ n ih =>
    intro i cursor cp r h
    unfold drainLoop at h
    split at h
    · exact absurd h (by simp)
    · split at h
      · exact absurd h (by simp)
      · split at h
        · split at h
          · exact absurd h (by simp)
          · rename_i r' heq
            injection h with h
            subst h
            have := ih (i + 1) (cursor + delta) _ r' heq
            simp only [List.length_cons]
            omega
        · have := ih (i + 1) (cursor + delta) none r h
          omega

theorem drainLoop_t_form {α : Type} [Zero α] (est : PitchEstimator α) (p : Params α)
    (samples : List α) (idx0 delta : Nat) :
    ∀ (n i cursor : Nat) (cp : Option α) (r : List (Pitch α) × Nat × Option α),
      drainLoop est p samples idx0 delta n i cursor cp = some r →
      ∀ q ∈ r.1, ∃ k, k < n ∧
        q.t = cursor + (k + 1) * delta + (i + k) * delta + idx0 := by
  intro n
  induction n with
  | zero =>
    intro i cursor cp r h
    injection h with h
    subst h
    simp
  | succ n ih =>
    intro i cursor cp r h
    unfold drainLoop at h
    split at h
    · exact absurd h (by simp)
    · split at h
      · exact absurd h (by simp)
      · split at h
        · split at h
          · exact absurd h (by simp)
          · rename_i q0 r' heq
            injection h with h
            subst h
            intro q hq
            rcases List.mem_cons.mp hq with hq | hq
            · refine ⟨0, by omega, ?_⟩
              subst hq
              ring
            · obtain ⟨k, hk, ht⟩ := ih (i + 1) (cursor + delta) _ r' heq q hq
              refine ⟨k + 1, by omega, ?_⟩
              rw [ht]
              ring
        · intro q hq
          obtain ⟨k, hk, ht⟩ := ih (i + 1) (cursor + delta) none r h q hq
          refine ⟨k + 1, by omega, ?_⟩
          rw [ht]
          ring

theorem drainLoop_pairwise {α : Type} [Zero α] (est : PitchEstimator α) (p : Params α)
    (samples : List α) (idx0 delta : Nat) (hδ : 0 < delta) :
    ∀ (n i cursor : Nat) (cp : Option α) (r : List (Pitch α) × Nat × Option α),
      drainLoop est p samples idx0 delta n i cursor cp = some r →
      (r.1.map Pitch.t).Pairwise (· < ·) := by
  intro n
  induction n with
  | zero =>
    intro i cursor cp r h
    injection h with h
    subst h
    simp
  | succ n ih =>
    intro i cursor cp r h
    unfold drainLoop at h
    split at h
    · exact absurd h (by simp)
    · split at h
      · exact absurd h (by simp)
      · split at h
        · split at h
          · exact absurd h (by simp)
          · rename_i q0 r' heq
            injection h with h
            subst h
            simp only [List.map_cons]
            rw [List.pairwise_cons]
            constructor
            · intro b hb
              obtain ⟨q, hq, rfl⟩ := List.mem_map.mp hb
              obtain ⟨k, hk, ht⟩ :=
                drainLoop_t_form est p samples idx0 delta n (i + 1) (cursor + delta)
                  _ r' heq q hq
              rw [ht]
              have e1 : (k + 1) * delta = k * delta + delta := by ring
              have e2 : (i + 1 + k) * delta = i * delta + k * delta + delta := by ring
              omega
            · exact ih (i + 1) (cursor + delta) _ r' heq
        · exact ih (i + 1) (cursor + delta) none r h

theorem drainLoop_isSome {α : Type} [Zero α] (est : PitchEstimator α) (p : Params α)
    (samples : List α) (idx0 delta : Nat) (hW : p.window ≤ MAX_WINDOW_SIZE) :
    ∀ (n i cursor : Nat) (cp : Option α),
      (drainLoop est p samples idx0 delta n i cursor cp).isSome := by
  intro n
  induction n with
  | zero => intro i cursor cp; simp [drainLoop]
  | succ n ih =>
    intro i cursor cp
    rw [drainLoop_step est p samples idx0 delta n i cursor cp hW]
    cases hE : est (windowArg samples p.window idx0 delta i) p.sample_rate
        p.power_threshold p.clarity_threshold none with
    | none => exact ih (i + 1) (cursor + delta) none
    | some q =>
      dsimp only
      rw [Option.isSome_map']
      exact ih (i + 1) (cursor + delta) (some q.frequency)

theorem drainLoop_allSome {α : Type} [Zero α] (est : PitchEstimator α) (p : Params α)
    (samples : List α) (idx0 delta : Nat) (hW : p.window ≤ MAX_WINDOW_SIZE)
    (hest : ∀ w, (est w p.sample_rate p.power_threshold p.clarity_threshold none).isSome) :
    ∀ (n i cursor : Nat) (cp : Option α), ∃ ps c2 cp2,
      drainLoop est p samples idx0 delta (n + 1) i cursor cp = some (ps, c2, cp2) ∧
      ps.map Pitch.t = (List.range (n + 1)).map
        (fun k => cursor + (k + 1) * delta + (i + k) * delta + idx0) ∧
      ps.map Pitch.onset = cp.isNone :: List.replicate n false := by
  intro n
  induction n with
  | zero =>
    intro i cursor cp
    obtain ⟨q, hq⟩ := Option.isSome_iff_exists.mp
      (hest (windowArg samples p.window idx0 delta i))
    refine ⟨[Pitch.mk (cursor + delta + (i * delta + idx0)) q.frequency q.clarity
      cp.isNone], cursor + delta, some q.frequency, ?_, ?_, by simp⟩
    · rw [drainLoop_step est p samples idx0 delta 0 i cursor cp hW, hq]
      rfl
    · simp [List.range_succ]
      ring
  | succ n ih =>
    intro i cursor cp
    obtain ⟨q, hq⟩ := Option.isSome_iff_exists.mp
      (hest (windowArg samples p.window idx0 delta i))
    obtain ⟨ps', c2, cp2, hd, ht, ho⟩ := ih (i + 1) (cursor + delta) (some q.frequency)
    refine ⟨Pitch.mk (cursor + delta + (i * delta + idx0)) q.frequency q.clarity
      cp.isNone :: ps', c2, cp2, ?_, ?_, ?_⟩
    · rw [drainLoop_step est p samples idx0 delta (n + 1) i cursor cp hW, hq]
      dsimp only
      rw [hd]
      rfl
    · rw [show List.range (n + 1 + 1) = 0 :: (List.range (n + 1)).map Nat.succ from
        List.range_succ_eq_map (n + 1)]
      simp only [List.map_cons, List.map_map, ht]
      congr 1
      · simp
        ring
      · apply List.map_congr_left
        intro k _
        simp [Function.comp]
        ring
    · simp [ho, List.replicate_succ]

theorem usizeSub_eq {a b : Nat} (h : b ≤ a) : usizeSub a b = some (a - b) := by
  simp [usizeSub, h]

theorem usizeDiv_eq {a b : Nat} (h : b ≠ 0) : usizeDiv a b = some (a / b) := by
  simp [usizeDiv, h]

theorem pitches_vec_small {α : Type} [Zero α] (est : PitchEstimator α)
    (s : PitchDetectorState α) (h : s.audio_samples.length < s.params.window) :
    pitches_vec est s = some ([], s) := by
  simp [pitches_vec, h]

theorem pitches_vec_empty {α : Type} [Zero α] (est : PitchEstimator α)
    (s : PitchDetectorState α)
    (h1 : s.time_of_first_sample ≤ s.time_of_next_unprocessed_sample)
    (h2 : s.time_of_next_unprocessed_sample - s.time_of_first_sample ≤
      s.audio_samples.length)
    (h3 : unprocessedLen s < s.params.window ∨
      (0 < hopSize s ∧ numWindowsOf s = 0)) :
    pitches_vec est s = some ([], s) := by
  unfold pitches_vec index_of_next_unprocessed_sample
  rw [usizeSub_eq h1]
  dsimp only
  rw [usizeSub_eq h2]
  by_cases hsm : s.audio_samples.length < s.params.window
  · rw [if_pos hsm]
  · rw [if_neg hsm]
    dsimp only
    by_cases hup : s.audio_samples.length -
        (s.time_of_next_unprocessed_sample - s.time_of_first_sample) < s.params.window
    · rw [if_pos hup]
    · rw [if_neg hup]
      have hrest : 0 < hopSize s ∧ numWindowsOf s = 0 := by
        rcases h3 with h3 | h3
        · exact absurd h3 (by unfold unprocessedLen; omega)
        · exact h3
      have hδ : s.params.window / 4 ≠ 0 := by
        have := hrest.1
        unfold hopSize at this
        omega
      rw [usizeDiv_eq hδ]
      dsimp only
      rw [if_pos]
      have := hrest.2
      unfold numWindowsOf unprocessedLen hopSize at this
      exact this

theorem pitches_vec_loop {α : Type} [Zero α] (est : PitchEstimator α)
    (s : PitchDetectorState α) (ps : List (Pitch α)) (c2 : Nat) (cp2 : Option α)
    (h1 : s.time_of_first_sample ≤ s.time_of_next_unprocessed_sample)
    (h2 : (s.time_of_next_unprocessed_sample - s.time_of_first_sample) +
      s.params.window ≤ s.audio_samples.length)
    (hδ : 0 < hopSize s) (hnw : numWindowsOf s ≠ 0)
    (hd : drainLoop est s.params s.audio_samples
      (s.time_of_next_unprocessed_sample - s.time_of_first_sample) (hopSize s)
      (numWindowsOf s) 0 s.time_of_next_unprocessed_sample s.current_pitch =
      some (ps, c2, cp2)) :
    pitches_vec est s = some (ps, { s with
      time_of_next_unprocessed_sample := c2
      current_pitch := cp2 }) := by
  unfold pitches_vec index_of_next_unprocessed_sample
  rw [usizeSub_eq h1]
  dsimp only
  rw [usizeSub_eq (by omega :
    s.time_of_next_unprocessed_sample - s.time_of_first_sample ≤
      s.audio_samples.length)]
  rw [if_neg (by omega : ¬ s.audio_samples.length < s.params.window)]
  dsimp only
  rw [if_neg (by omega : ¬ s.audio_samples.length -
    (s.time_of_next_unprocessed_sample - s.time_of_first_sample) < s.params.window)]
  have hδ4 : s.params.window / 4 ≠ 0 := by
    unfold hopSize at hδ
    omega
  rw [usizeDiv_eq hδ4]
  dsimp only
  rw [if_neg (show ¬ (s.audio_samples.length -
      (s.time_of_next_unprocessed_sample - s.time_of_first_sample) -
      s.params.window) / (s.params.window / 4) = 0 from by
    unfold numWindowsOf unprocessedLen hopSize at hnw
    exact hnw)]
  have hd2 : drainLoop est s.params s.audio_samples
      (s.time_of_next_unprocessed_sample - s.time_of_first_sample)
      (s.params.window / 4)
      ((s.audio_samples.length -
        (s.time_of_next_unprocessed_sample - s.time_of_first_sample) -
        s.params.window) / (s.params.window / 4)) 0
      s.time_of_next_unprocessed_sample s.current_pitch = some (ps, c2, cp2) := by
    unfold numWindowsOf unprocessedLen hopSize at hd
    exact hd
  rw [hd2]

theorem pitches_vec_inv {α : Type} [Zero α] (est : PitchEstimator α)
    (s : PitchDetectorState α) (r : List (Pitch α) × PitchDetectorState α)
    (h : pitches_vec est s = some r) :
    r = ([], s) ∨
      (s.time_of_first_sample ≤ s.time_of_next_unprocessed_sample ∧
       (s.time_of_next_unprocessed_sample - s.time_of_first_sample) +
         s.params.window ≤ s.audio_samples.length ∧
       0 < hopSize s ∧ numWindowsOf s ≠ 0 ∧
       ∃ ps c2 cp2,
         drainLoop est s.params s.audio_samples
           (s.time_of_next_unprocessed_sample - s.time_of_first_sample) (hopSize s)
           (numWindowsOf s) 0 s.time_of_next_unprocessed_sample s.current_pitch =
           some (ps, c2, cp2) ∧
         r = (ps, { s with
           time_of_next_unprocessed_sample := c2
           current_pitch := cp2 })) := by
  unfold pitches_vec at h
  split at h
  · left
    injection h with h
    exact h.symm
  · rename_i hsm
    unfold index_of_next_unprocessed_sample at h
    split at h
    · exact absurd h (by simp)
    · rename_i idx heq1
      split at h
      · exact absurd h (by simp)
      · rename_i nup heq2
        split at h
        · left
          injection h with h
          exact h.symm
        · rename_i hup
          split at h
          · exact absurd h (by simp)
          · rename_i nw heq3
            split at h
            · left
              injection h with h
              exact h.symm
            · rename_i hnw0
              split at h
              · exact absurd h (by simp)
              · rename_i r' heqd
                right
                unfold usizeSub at heq1 heq2
                unfold usizeDiv at heq3
                split at heq1
                · injection heq1 with heq1
                  split at heq2
                  · injection heq2 with heq2
                    split at heq3
                    · exact absurd heq3 (by simp)
                    · injection heq3 with heq3
                      injection h with h
                      subst heq1
                      subst heq2
                      subst heq3
                      rename_i hle1 hle2 hd4
                      refine ⟨hle1, by omega, ?_, ?_, r'.1, r'.2.1, r'.2.2, ?_, h.symm⟩
                      · unfold hopSize
                        omega
                      · unfold numWindowsOf unprocessedLen hopSize
                        exact hnw0
                      · unfold numWindowsOf unprocessedLen hopSize
                        rw [heqd]
                  · exact absurd heq2 (by simp)
                · exact absurd heq1 (by simp)

theorem pitches_vec_drain_drain {α : Type} [Zero α] (est : PitchEstimator α)
    (s s2 : PitchDetectorState α) (ps : List (Pitch α))
    (h : pitches_vec est s = some (ps, s2)) :
    pitches_vec est s2 = some ([], s2) := by
  rcases pitches_vec_inv est s _ h with he | ⟨h1, h2, h3, h4, ps', c2, cp2, hd, hr⟩
  · injection he with hps hs
    subst hps
    subst hs
    exact h
  · injection hr with hps hs
    subst hps
    subst hs
    have hc2 : c2 = s.time_of_next_unprocessed_sample + numWindowsOf s * hopSize s := by
      have := drainLoop_cursor est s.params s.audio_samples
        (s.time_of_next_unprocessed_sample - s.time_of_first_sample) (hopSize s)
        (numWindowsOf s) 0 s.time_of_next_unprocessed_sample s.current_pitch
        (ps, c2, cp2) hd
      simpa using this
    have hdam := Nat.div_add_mod (unprocessedLen s - s.params.window) (hopSize s)
    have hmlt := Nat.mod_lt (unprocessedLen s - s.params.window) h3
    rw [Nat.mul_comm] at hdam
    rw [show numWindowsOf s = (unprocessedLen s - s.params.window) / hopSize s
      from rfl] at hc2
    generalize hM : (unprocessedLen s - s.params.window) % hopSize s = M at hdam hmlt
    generalize hD : (unprocessedLen s - s.params.window) / hopSize s = D at hdam hc2
    generalize hP : D * hopSize s = P at hdam hc2
    unfold unprocessedLen at hdam
    unfold hopSize at hmlt
    unfold hopSize at h3
    apply pitches_vec_empty
    · show s.time_of_first_sample ≤ c2
      omega
    · show c2 - s.time_of_first_sample ≤ s.audio_samples.length
      omega
    · right
      refine ⟨h3, ?_⟩
      show (s.audio_samples.length - (c2 - s.time_of_first_sample) -
        s.params.window) / (s.params.window / 4) = 0
      apply Nat.div_eq_of_lt
      omega

theorem pitches_vec_total {α : Type} [Zero α] (est : PitchEstimator α)
    (s : PitchDetectorState α)
    (h1 : s.time_of_first_sample ≤ s.time_of_next_unprocessed_sample)
    (h2 : s.time_of_next_unprocessed_sample - s.time_of_first_sample ≤
      s.audio_samples.length)
    (h4 : 4 ≤ s.params.window) (hM : s.params.window ≤ MAX_WINDOW_SIZE) :
    ∃ r, pitches_vec est s = some r := by
  have hδ : 0 < hopSize s := by
    unfold hopSize
    omega
  by_cases hup : unprocessedLen s < s.params.window
  · exact ⟨([], s), pitches_vec_empty est s h1 h2 (Or.inl hup)⟩
  · by_cases hnw : numWindowsOf s = 0
    · exact ⟨([], s), pitches_vec_empty est s h1 h2 (Or.inr ⟨hδ, hnw⟩)⟩
    · obtain ⟨r, hr⟩ := Option.isSome_iff_exists.mp
        (drainLoop_isSome est s.params s.audio_samples
          (s.time_of_next_unprocessed_sample - s.time_of_first_sample) (hopSize s)
          hM (numWindowsOf s) 0 s.time_of_next_unprocessed_sample s.current_pitch)
      obtain ⟨ps, c2, cp2⟩ := r
      have h2b : (s.time_of_next_unprocessed_sample - s.time_of_first_sample) +
          s.params.window ≤ s.audio_samples.length := by
        unfold unprocessedLen at hup
        omega
      exact ⟨_, pitches_vec_loop est s ps c2 cp2 h1 h2b hδ hnw hr⟩

theorem take_append_take {β : Type} (K : Nat) (a b : List β) :
    (a ++ b.take K).take K = (a ++ b).take K := by
  rw [List.take_append_eq_append_take, List.take_append_eq_append_take, List.take_take]
  congr 1
  rw [min_eq_left (by omega : K - a.length ≤ K)]

/-- Processor state with the given chunk size, capacity, absolute time
counter and stored chunks (newest first). -/
def mkProc {α : Type} (c0 K t0 : Nat) (l : List (List α)) :
    AudioSamplesProcessorState α :=
  { chunk_size := c0
    max_stored_chunks := K
    time_of_last_added_sample := t0
    recent_audio_sample_f32s := { capacity := K, items := l } }

theorem pushAll_state {α : Type} (c0 K : Nat) :
    ∀ (cs : List (List α)) (t0 : Nat) (l : List (List α)), l.length ≤ K →
      (∀ ch ∈ cs, ch.length = c0) →
      pushAll (mkProc c0 K t0 l) cs =
        some (mkProc c0 K (t0 + cs.length * c0) ((cs.reverse ++ l).take K)) := by
  intro cs
  induction cs with
  | nil =>
    intro t0 l hl _
    simp [pushAll, mkProc, List.take_of_length_le hl]
  | cons c cs ih =>
    intro t0 l hl hc
    have hlen : c.length = c0 := hc c (by simp)
    have hadd : add_samples_chunk (mkProc c0 K t0 l) c =
        (mkProc c0 K (t0 + c0) ((c :: l).take K), none) := by
      unfold add_samples_chunk mkProc
      rw [if_neg (by simp [hlen])]
      rfl
    have hstep : pushAll (mkProc c0 K t0 l) (c :: cs) =
        match add_samples_chunk (mkProc c0 K t0 l) c with
        | (s2, none) => pushAll s2 cs
        | (_, some _) => none := rfl
    rw [hstep, hadd]
    show pushAll (mkProc c0 K (t0 + c0) ((c :: l).take K)) cs =
      some (mkProc c0 K (t0 + (c :: cs).length * c0) (((c :: cs).reverse ++ l).take K))
    rw [ih (t0 + c0) ((c :: l).take K) (by simp) (fun x hx => hc x (by simp [hx]))]
    have hitems : (cs.reverse ++ (c :: l).take K).take K =
        ((c :: cs).reverse ++ l).take K := by
      rw [take_append_take, List.reverse_cons, List.append_assoc,
        List.singleton_append]
    have htime : t0 + c0 + cs.length * c0 = t0 + (c :: cs).length * c0 := by
      simp [List.length_cons]
      ring
    rw [hitems, htime]

theorem flatten_length_of_chunks {α : Type} (c0 : Nat) :
    ∀ (cs : List (List α)), (∀ ch ∈ cs, ch.length = c0) →
      cs.flatten.length = cs.length * c0 := by
  intro cs
  induction cs with
  | nil => intro _; simp
  | cons ch cs ih =>
    intro hc
    have hch : ch.length = c0 := hc ch (by simp)
    simp only [List.flatten_cons, List.length_append, List.length_cons]
    rw [ih (fun x hx => hc x (by simp [hx])), hch]
    ring

theorem flatten_drop_of_chunks {α : Type} (c0 : Nat) :
    ∀ (cs : List (List α)) (m : Nat), (∀ ch ∈ cs, ch.length = c0) →
      m ≤ cs.length → (cs.drop m).flatten = cs.flatten.drop (m * c0) := by
  intro cs
  induction cs with
  | nil =>
    intro m _ hm
    simp at hm
    subst hm
    simp
  | cons ch cs ih =>
    intro m hc hm
    cases m with
    | zero => simp
    | succ m =>
      have hch : ch.length = c0 := hc ch (by simp)
      simp only [List.drop_succ_cons, List.flatten_cons]
      rw [ih m (fun x hx => hc x (by simp [hx])) (by simpa using hm)]
      rw [show (m + 1) * c0 = ch.length + m * c0 from by rw [hch]; ring,
        List.drop_append]

/-- C10: for every signal, start offset and window with `window ≤ output.len()`,
`fill_chunk` is total (all reads and writes stay in bounds, even when `start`
lies at or beyond the end of the signal, thanks to the clamping of `start`
and `stop`), it preserves the output length, positions covered by the signal
receive the corresponding signal samples, and every output position not
covered by available signal samples is set to 0. -/
theorem claim10_fill_chunk_safe {α : Type} [Zero α] (signal output : List α)
    (start window : Nat) (h : window ≤ output.length) :
    ∃ out2, fill_chunk signal start window output = some out2 ∧
      out2.length = output.length ∧
      (∀ j, j < coveredCount signal.length start window →
        out2[j]? = signal[fillStart signal.length start + j]?) ∧
      (∀ j, coveredCount signal.length start window ≤ j → j < output.length →
        out2[j]? = some (0 : α)) := by
  have hle := fillStart_le_fillStop signal.length start window
  have hstop := fillStop_le signal.length start window
  have hcov := coveredCount_le_window signal.length start window
  have hwl : ((signal.drop (fillStart signal.length start)).take
      (coveredCount signal.length start window)).length =
      coveredCount signal.length start window := by
    simp only [List.length_take, List.length_drop]
    unfold coveredCount
    omega
  refine ⟨chunkContents signal start window output.length,
    fill_chunk_eq signal start window output h,
    chunkContents_length signal start window output.length h, ?_, ?_⟩
  · intro j hj
    unfold chunkContents
    rw [List.getElem?_append_left (by rw [hwl]; exact hj)]
    rw [List.getElem?_take, if_pos hj, List.getElem?_drop]
  · intro j hj1 hj2
    unfold chunkContents
    rw [List.getElem?_append_right (by rw [hwl]; exact hj1)]
    rw [hwl, List.getElem?_replicate, if_pos (by omega)]

/-- C8: a chunk push whose length differs from the fixed chunk size reports
`ChunkSizeMismatch` and returns the processor state unchanged, and an ingest
whose view is shorter than the window reports `InsufficientSamples` and
returns the detector state unchanged (in the Rust source both checks panic
before any field is written). -/
theorem claim8_size_mismatch_rejected_whole {α : Type} [Zero α] :
    (∀ (s : AudioSamplesProcessorState α) (chunk : List α),
      chunk.length ≠ s.chunk_size →
      add_samples_chunk s chunk =
        (s, some (.chunkSizeMismatch s.chunk_size chunk.length))) ∧
    (∀ (d : PitchDetectorState α) (t : Nat) (v : List α),
      v.length < d.params.window →
      set_audio_samples d t v =
        (d, some (.insufficientSamples v.length d.params.window))) := by
  constructor
  · intro s chunk hne
    unfold add_samples_chunk
    rw [if_pos hne]
  · intro d t v hlt
    unfold set_audio_samples
    rw [if_pos hlt]

/-- Concrete estimator over `Int` samples that finds a confident pitch in
every window. -/
def estAlways (f c : Int) : PitchEstimator Int :=
  fun _ _ _ _ _ => some ⟨f, c⟩

/-- Concrete estimator over `Int` samples that never finds a confident
pitch. -/
def estNever : PitchEstimator Int :=
  fun _ _ _ _ _ => none

/-- Concrete detector state over `Int` samples (thresholds instantiated at
0). -/
def detState (window first cursor : Nat) (samples : List Int) :
    PitchDetectorState Int :=
  { params := make_params window 0 0
    time_of_first_sample := first
    time_of_next_unprocessed_sample := cursor
    current_pitch := none
    audio_samples := samples
    history := none }

/-- C8 witness: a 1-sample chunk pushed into a 128-sample-chunk processor and
a 1-sample ingest into a window-4 detector are both rejected with the state
unchanged. -/
theorem claim8_witness :
    add_samples_chunk (AudioSamplesProcessor.new Int) [(5 : Int)] =
      (AudioSamplesProcessor.new Int, some (.chunkSizeMismatch 128 1)) ∧
    set_audio_samples (detState 4 0 0 []) 7 [(5 : Int)] =
      (detState 4 0 0 [], some (.insufficientSamples 1 4)) :=
  ⟨(claim8_size_mismatch_rejected_whole (α := Int)).1
      (AudioSamplesProcessor.new Int) [(5 : Int)] (by decide),
    (claim8_size_mismatch_rejected_whole (α := Int)).2
      (detState 4 0 0 []) 7 [(5 : Int)] (by decide)⟩

/-- C10 witness: a window of 2 requested at offset 5 of a 2-sample signal
into a 3-slot output succeeds and zero-fills everything (the start offset
lies beyond the signal's end). -/
theorem claim10_witness :
    ∃ out2, fill_chunk [(1 : Int), 2] 5 2 [(7 : Int), 7, 7] = some out2 ∧
      out2.length = ([(7 : Int), 7, 7] : List Int).length ∧
      (∀ j, j < coveredCount ([(1 : Int), 2] : List Int).length 5 2 →
        out2[j]? = ([(1 : Int), 2] : List Int)[fillStart
          ([(1 : Int), 2] : List Int).length 5 + j]?) ∧
      (∀ j, coveredCount ([(1 : Int), 2] : List Int).length 5 2 ≤ j →
        j < ([(7 : Int), 7, 7] : List Int).length → out2[j]? = some (0 : Int)) :=
  claim10_fill_chunk_safe [(1 : Int), 2] [(7 : Int), 7, 7] 5 2 (by decide)

/-- C5: in each analysis-loop iteration of `pitches_vec`, a confident
estimate is emitted as a `Pitch` whose `onset` is `current_pitch.is_none()`
(true exactly when `last_confident_pitch` was `None` at that point — first
confident window ever, or the immediately preceding analyzed window yielded
none), and the loop continues with `current_pitch = Some(frequency)`; a
window with no confident estimate emits nothing and continues with
`current_pitch = None`, so the next confident pitch is flagged as an onset
again. -/
theorem claim5_onset_classification {α : Type} [Zero α] (est : PitchEstimator α)
    (p : Params α) (samples : List α) (idx0 delta n i cursor : Nat) (cp : Option α)
    (hW : p.window ≤ MAX_WINDOW_SIZE) :
    drainLoop est p samples idx0 delta (n + 1) i cursor cp =
      match est (windowArg samples p.window idx0 delta i) p.sample_rate
          p.power_threshold p.clarity_threshold none with
      | some q =>
        (drainLoop est p samples idx0 delta n (i + 1) (cursor + delta)
            (some q.frequency)).map
          (fun r => ({ t := cursor + delta + (i * delta + idx0)
                       frequency := q.frequency
                       clarity := q.clarity
                       onset := cp.isNone } :: r.1, r.2))
      | none => drainLoop est p samples idx0 delta n (i + 1) (cursor + delta) none :=
  drainLoop_step est p samples idx0 delta n i cursor cp hW

/-- C5 witness: one window of a window-4 detector over five samples with an
estimator that never finds a pitch emits nothing and continues with
`current_pitch = None`. -/
theorem claim5_witness :
    drainLoop estNever (make_params 4 0 0) [(0 : Int), 0, 0, 0, 0] 0 1 1 0 0 none =
      drainLoop estNever (make_params 4 0 0) [(0 : Int), 0, 0, 0, 0] 0 1 0 1 1 none :=
  (claim5_onset_classification estNever (make_params 4 0 0) [(0 : Int), 0, 0, 0, 0]
    0 1 0 0 0 none (by decide)).trans rfl

/-- C4: draining twice in succession with no intervening ingest yields an
empty sequence on the second call — the first `pitches_vec` advances the
cursor past every analyzed window, so no already-emitted `Pitch` is
reproduced. -/
theorem claim4_second_drain_empty {α : Type} [Zero α] (est : PitchEstimator α)
    (s s2 : PitchDetectorState α) (ps : List (Pitch α))
    (h : pitches_vec est s = some (ps, s2)) :
    pitches_vec est s2 = some ([], s2) :=
  pitches_vec_drain_drain est s s2 ps h

/-- One concrete drain over `Int` samples: a window-4 detector, five
samples, estimator that never finds a pitch — one window is analyzed, the
cursor advances by one hop, nothing is emitted. -/
theorem concrete_never_drain :
    pitches_vec estNever (detState 4 0 0 (List.replicate 5 0)) =
      some ([], detState 4 0 1 (List.replicate 5 0)) := by
  have hd : drainLoop estNever (detState 4 0 0 (List.replicate 5 0)).params
      (detState 4 0 0 (List.replicate 5 0)).audio_samples
      ((detState 4 0 0 (List.replicate 5 0)).time_of_next_unprocessed_sample -
        (detState 4 0 0 (List.replicate 5 0)).time_of_first_sample)
      (hopSize (detState 4 0 0 (List.replicate 5 0)))
      (numWindowsOf (detState 4 0 0 (List.replicate 5 0))) 0
      (detState 4 0 0 (List.replicate 5 0)).time_of_next_unprocessed_sample
      (detState 4 0 0 (List.replicate 5 0)).current_pitch = some ([], 1, none) := by
    show drainLoop estNever (make_params 4 0 0) (List.replicate 5 (0 : Int))
      0 1 1 0 0 none = some ([], 1, none)
    rw [drainLoop_step _ _ _ _ _ _ _ _ _ (by decide)]
    rfl
  exact pitches_vec_loop estNever (detState 4 0 0 (List.replicate 5 0)) [] 1 none
    (by decide) (by decide) (by decide) (by decide) hd

/-- C4 witness: after one drain of a window-4 detector over five samples the
second drain returns an empty batch. -/
theorem claim4_witness :
    pitches_vec estNever (detState 4 0 0 (List.replicate 5 0)) =
      some ([], detState 4 0 1 (List.replicate 5 0)) ∧
    pitches_vec estNever (detState 4 0 1 (List.replicate 5 0)) =
      some ([], detState 4 0 1 (List.replicate 5 0)) :=
  ⟨concrete_never_drain,
    claim4_second_drain_empty estNever (detState 4 0 0 (List.replicate 5 0))
      (detState 4 0 1 (List.replicate 5 0)) [] concrete_never_drain⟩

/-- C6: a fresh detector satisfies `cursor ≥ view start`; a successful
ingest sets the cursor to `max(cursor before, t)` — it never decreases —
records the view start `t`, and re-establishes the invariant
`time_of_next_unprocessed_sample ≥ time_of_first_sample_in_current_view`;
a successful drain never decreases the cursor, keeps the view start, and
preserves the invariant. -/
theorem claim6_cursor_monotone {α : Type} [Zero α] :
    (∀ (p : Params α) (s0 : PitchDetectorState α), PitchDetector.new p = some s0 →
      s0.time_of_first_sample ≤ s0.time_of_next_unprocessed_sample) ∧
    (∀ (s : PitchDetectorState α) (t : Nat) (v : List α)
        (s2 : PitchDetectorState α),
      set_audio_samples s t v = (s2, none) →
      s2.time_of_next_unprocessed_sample =
        max s.time_of_next_unprocessed_sample t ∧
      s2.time_of_first_sample = t ∧
      s.time_of_next_unprocessed_sample ≤ s2.time_of_next_unprocessed_sample ∧
      s2.time_of_first_sample ≤ s2.time_of_next_unprocessed_sample) ∧
    (∀ (est : PitchEstimator α) (s : PitchDetectorState α) (ps : List (Pitch α))
        (s2 : PitchDetectorState α),
      pitches_vec est s = some (ps, s2) →
      s.time_of_next_unprocessed_sample ≤ s2.time_of_next_unprocessed_sample ∧
      s2.time_of_first_sample = s.time_of_first_sample ∧
      (s.time_of_first_sample ≤ s.time_of_next_unprocessed_sample →
        s2.time_of_first_sample ≤ s2.time_of_next_unprocessed_sample)) := by
  refine ⟨?_, ?_, ?_⟩
  · intro p s0 h
    unfold PitchDetector.new at h
    split at h
    · exact absurd h (by simp)
    · injection h with h
      subst h
      exact Nat.le_refl 0
  · intro s t v s2 h
    unfold set_audio_samples at h
    split at h
    · injection h with h1 h2
      exact absurd h2 (by simp)
    · injection h with h1 h2
      subst h1
      refine ⟨?_, rfl, ?_, ?_⟩
      · show (if t > s.time_of_next_unprocessed_sample then t
          else s.time_of_next_unprocessed_sample) =
          max s.time_of_next_unprocessed_sample t
        split_ifs <;> omega
      · show s.time_of_next_unprocessed_sample ≤
          (if t > s.time_of_next_unprocessed_sample then t
          else s.time_of_next_unprocessed_sample)
        split_ifs <;> omega
      · show t ≤ (if t > s.time_of_next_unprocessed_sample then t
          else s.time_of_next_unprocessed_sample)
        split_ifs <;> omega
  · intro est s ps s2 h
    rcases pitches_vec_inv est s _ h with he | ⟨h1, h2, h3, h4, ps', c2, cp2, hd, hr⟩
    · injection he with hps hs
      subst hs
      exact ⟨Nat.le_refl _, rfl, fun h => h⟩
    · injection hr with hps hs
      subst hps
      subst hs
      have hc2 : c2 = s.time_of_next_unprocessed_sample +
          numWindowsOf s * hopSize s := by
        have := drainLoop_cursor est s.params s.audio_samples
          (s.time_of_next_unprocessed_sample - s.time_of_first_sample) (hopSize s)
          (numWindowsOf s) 0 s.time_of_next_unprocessed_sample s.current_pitch
          (ps, c2, cp2) hd
        simpa using this
      refine ⟨?_, rfl, fun _ => ?_⟩
      · show s.time_of_next_unprocessed_sample ≤ c2
        omega
      · show s.time_of_first_sample ≤ c2
        omega

/-- C6 witness: a fresh window-4 detector, an ingest of 4 samples at t = 7,
and a drain on an empty view, each instantiating one conjunct. -/
theorem claim6_witness :
    (detState 4 0 0 []).time_of_first_sample ≤
      (detState 4 0 0 []).time_of_next_unprocessed_sample ∧
    (detState 4 7 7 (List.replicate 4 0)).time_of_next_unprocessed_sample =
      max (detState 4 0 0 []).time_of_next_unprocessed_sample 7 ∧
    (detState 4 0 0 []).time_of_next_unprocessed_sample ≤
      (detState 4 0 0 []).time_of_next_unprocessed_sample :=
  ⟨(claim6_cursor_monotone (α := Int)).1 (make_params 4 0 0) (detState 4 0 0 [])
      (by rfl),
    ((claim6_cursor_monotone (α := Int)).2.1 (detState 4 0 0 []) 7
      (List.replicate 4 0) (detState 4 7 7 (List.replicate 4 0)) (by rfl)).1,
    ((claim6_cursor_monotone (α := Int)).2.2 estNever (detState 4 0 0 []) []
      (detState 4 0 0 []) (by rfl)).1⟩

/-- C1 (amended): every pitch a `pitches_vec` call emits for window `k`
carries `t = cursor + (k + 1) × hop + k × hop + (cursor − view_start)` —
the window's absolute start plus an extra `(k + 1) × hop + (cursor −
view_start)`, because the Rust source adds the already-advanced cursor to
the window's view-relative index — and the `t` values within one batch are
strictly increasing (by `2 × hop` for consecutive confident windows, not by
`hop`). -/
theorem claim1_t_values {α : Type} [Zero α] (est : PitchEstimator α)
    (s : PitchDetectorState α) (ps : List (Pitch α)) (s2 : PitchDetectorState α)
    (h : pitches_vec est s = some (ps, s2)) :
    (∀ q ∈ ps, ∃ k, k < numWindowsOf s ∧
      q.t = s.time_of_next_unprocessed_sample + (k + 1) * hopSize s +
        (0 + k) * hopSize s +
        (s.time_of_next_unprocessed_sample - s.time_of_first_sample)) ∧
    (ps.map Pitch.t).Pairwise (· < ·) := by
  rcases pitches_vec_inv est s _ h with he | ⟨h1, h2, h3, h4, ps', c2, cp2, hd, hr⟩
  · injection he with hps hs
    subst hps
    exact ⟨by simp, by simp⟩
  · injection hr with hps hs
    subst hps
    refine ⟨?_, ?_⟩
    · intro q hq
      exact drainLoop_t_form est s.params s.audio_samples
        (s.time_of_next_unprocessed_sample - s.time_of_first_sample) (hopSize s)
        (numWindowsOf s) 0 s.time_of_next_unprocessed_sample s.current_pitch
        (ps, c2, cp2) hd q hq
    · exact drainLoop_pairwise est s.params s.audio_samples
        (s.time_of_next_unprocessed_sample - s.time_of_first_sample) (hopSize s)
        h3 (numWindowsOf s) 0 s.time_of_next_unprocessed_sample s.current_pitch
        (ps, c2, cp2) hd

/-- One concrete drain over `Int` samples: window 4, hop 1, eight samples,
estimator always confident — four windows are analyzed and the emitted `t`
values are 1, 3, 5, 7 (spaced 2 × hop apart). -/
theorem concrete_always_drain :
    pitches_vec (estAlways 1 1) (detState 4 0 0 (List.replicate 8 0)) =
      some ([Pitch.mk 1 1 1 true, Pitch.mk 3 1 1 false, Pitch.mk 5 1 1 false,
        Pitch.mk 7 1 1 false],
        { detState 4 0 0 (List.replicate 8 0) with
            time_of_next_unprocessed_sample := 4
            current_pitch := some 1 }) := by
  have hd : drainLoop (estAlways 1 1) (detState 4 0 0 (List.replicate 8 0)).params
      (detState 4 0 0 (List.replicate 8 0)).audio_samples
      ((detState 4 0 0 (List.replicate 8 0)).time_of_next_unprocessed_sample -
        (detState 4 0 0 (List.replicate 8 0)).time_of_first_sample)
      (hopSize (detState 4 0 0 (List.replicate 8 0)))
      (numWindowsOf (detState 4 0 0 (List.replicate 8 0))) 0
      (detState 4 0 0 (List.replicate 8 0)).time_of_next_unprocessed_sample
      (detState 4 0 0 (List.replicate 8 0)).current_pitch =
      some ([Pitch.mk 1 1 1 true, Pitch.mk 3 1 1 false, Pitch.mk 5 1 1 false,
        Pitch.mk 7 1 1 false], 4, some 1) := by
    show drainLoop (estAlways 1 1) (make_params 4 0 0) (List.replicate 8 (0 : Int))
      0 1 4 0 0 none =
      some ([Pitch.mk 1 1 1 true, Pitch.mk 3 1 1 false, Pitch.mk 5 1 1 false,
        Pitch.mk 7 1 1 false], 4, some 1)
    rw [drainLoop_step _ _ _ _ _ _ _ _ _ (by decide)]
    simp only [estAlways]
    rw [drainLoop_step _ _ _ _ _ _ _ _ _ (by decide)]
    simp only [estAlways]
    rw [drainLoop_step _ _ _ _ _ _ _ _ _ (by decide)]
    simp only [estAlways]
    rw [drainLoop_step _ _ _ _ _ _ _ _ _ (by decide)]
    simp only [estAlways]
    rfl
  exact pitches_vec_loop (estAlways 1 1) (detState 4 0 0 (List.replicate 8 0))
    [Pitch.mk 1 1 1 true, Pitch.mk 3 1 1 false, Pitch.mk 5 1 1 false,
      Pitch.mk 7 1 1 false] 4 (some 1)
    (by decide) (by decide) (by decide) (by decide) hd

/-- C1 counterexample: with window 4 (hop 1), eight samples ingested at
time 0 and an always-confident estimator, the four emitted pitches carry
t = 1, 3, 5, 7 — not the window starts `cursor + i × hop = 0, 1, 2, 3`
the claim predicts, and not spaced by `hop`. -/
theorem claim1_counterexample :
    (pitches_vec (estAlways 1 1) (detState 4 0 0 (List.replicate 8 0))).map
        (fun r => r.1.map Pitch.t) = some [1, 3, 5, 7] ∧
    ¬ ([1, 3, 5, 7] = (List.range 4).map (fun k =>
        (detState 4 0 0 (List.replicate 8 0)).time_of_next_unprocessed_sample +
        k * hopSize (detState 4 0 0 (List.replicate 8 0)))) := by
  constructor
  · rw [concrete_always_drain]
    rfl
  · decide

/-- C1 witness: the amended `t` formula and the strict ordering hold on the
concrete window-4 drain. -/
theorem claim1_witness :
    (∀ q ∈ [Pitch.mk 1 (1 : Int) 1 true, Pitch.mk 3 1 1 false,
        Pitch.mk 5 1 1 false, Pitch.mk 7 1 1 false], ∃ k,
      k < numWindowsOf (detState 4 0 0 (List.replicate 8 0)) ∧
      q.t = (detState 4 0 0 (List.replicate 8 0)).time_of_next_unprocessed_sample +
        (k + 1) * hopSize (detState 4 0 0 (List.replicate 8 0)) +
        (0 + k) * hopSize (detState 4 0 0 (List.replicate 8 0)) +
        ((detState 4 0 0 (List.replicate 8 0)).time_of_next_unprocessed_sample -
          (detState 4 0 0 (List.replicate 8 0)).time_of_first_sample)) ∧
    (([Pitch.mk 1 (1 : Int) 1 true, Pitch.mk 3 1 1 false, Pitch.mk 5 1 1 false,
        Pitch.mk 7 1 1 false].map Pitch.t).Pairwise (· < ·)) :=
  claim1_t_values (estAlways 1 1) (detState 4 0 0 (List.replicate 8 0))
    [Pitch.mk 1 1 1 true, Pitch.mk 3 1 1 false, Pitch.mk 5 1 1 false,
      Pitch.mk 7 1 1 false]
    { detState 4 0 0 (List.replicate 8 0) with
        time_of_next_unprocessed_sample := 4
        current_pitch := some 1 }
    concrete_always_drain

/-- C3 (amended): for every detector state satisfying the detector
invariant `view_start ≤ cursor`, provided the cursor has not run past the
view (`cursor − view_start ≤ view_len` — otherwise the Rust `usize`
subtraction computing `unprocessed_len` underflows and the call panics
instead of returning empty), `window ≥ 4` (so `hop = window / 4 > 0` —
otherwise the `num_windows` division panics) and
`window ≤ MAX_WINDOW_SIZE`: if `unprocessed_len < window` the drain
returns an empty batch (not an error); otherwise it succeeds, analyzes
exactly `num_windows = (unprocessed_len − window) / hop` windows —
advancing the cursor by exactly `num_windows × hop` — emits at most one
`Pitch` per analyzed window, and every analyzed window lies entirely
inside the view (a window is never analyzed short). -/
theorem claim3_window_count {α : Type} [Zero α] (est : PitchEstimator α)
    (s : PitchDetectorState α)
    (h1 : s.time_of_first_sample ≤ s.time_of_next_unprocessed_sample)
    (h2 : s.time_of_next_unprocessed_sample - s.time_of_first_sample ≤
      s.audio_samples.length)
    (h4 : 4 ≤ s.params.window) (hM : s.params.window ≤ MAX_WINDOW_SIZE) :
    (unprocessedLen s < s.params.window → pitches_vec est s = some ([], s)) ∧
    (s.params.window ≤ unprocessedLen s →
      ∃ ps cp2, pitches_vec est s = some (ps, { s with
          time_of_next_unprocessed_sample :=
            s.time_of_next_unprocessed_sample + numWindowsOf s * hopSize s
          current_pitch := cp2 }) ∧
        ps.length ≤ numWindowsOf s ∧
        ∀ k, k < numWindowsOf s →
          (s.time_of_next_unprocessed_sample - s.time_of_first_sample) +
            k * hopSize s + s.params.window ≤ s.audio_samples.length) := by
  have hδ : 0 < hopSize s := by
    unfold hopSize
    omega
  constructor
  · intro hup
    exact pitches_vec_empty est s h1 h2 (Or.inl hup)
  · intro hge
    have hdm : numWindowsOf s * hopSize s ≤ unprocessedLen s - s.params.window := by
      unfold numWindowsOf
      exact Nat.div_mul_le_self _ _
    by_cases hnw : numWindowsOf s = 0
    · refine ⟨[], s.current_pitch, ?_, by simp, ?_⟩
      · rw [hnw]
        simp only [Nat.zero_mul, Nat.add_zero]
        exact pitches_vec_empty est s h1 h2 (Or.inr ⟨hδ, hnw⟩)
      · intro k hk
        rw [hnw] at hk
        omega
    · obtain ⟨r, hr⟩ := Option.isSome_iff_exists.mp
        (drainLoop_isSome est s.params s.audio_samples
          (s.time_of_next_unprocessed_sample - s.time_of_first_sample) (hopSize s)
          hM (numWindowsOf s) 0 s.time_of_next_unprocessed_sample s.current_pitch)
      obtain ⟨ps, c2, cp2⟩ := r
      have hc2 : c2 = s.time_of_next_unprocessed_sample +
          numWindowsOf s * hopSize s := by
        have := drainLoop_cursor est s.params s.audio_samples
          (s.time_of_next_unprocessed_sample - s.time_of_first_sample) (hopSize s)
          (numWindowsOf s) 0 s.time_of_next_unprocessed_sample s.current_pitch
          (ps, c2, cp2) hr
        simpa using this
      have hlen : ps.length ≤ numWindowsOf s := by
        have := drainLoop_len est s.params s.audio_samples
          (s.time_of_next_unprocessed_sample - s.time_of_first_sample) (hopSize s)
          (numWindowsOf s) 0 s.time_of_next_unprocessed_sample s.current_pitch
          (ps, c2, cp2) hr
        simpa using this
      have h2b : (s.time_of_next_unprocessed_sample - s.time_of_first_sample) +
          s.params.window ≤ s.audio_samples.length := by
        unfold unprocessedLen at hge
        omega
      refine ⟨ps, cp2, ?_, hlen, ?_⟩
      · rw [← hc2]
        exact pitches_vec_loop est s ps c2 cp2 h1 h2b hδ hnw hr
      · intro k hk
        have hkd : k * hopSize s + hopSize s ≤ numWindowsOf s * hopSize s := by
          have hk1 : k + 1 ≤ numWindowsOf s := hk
          calc k * hopSize s + hopSize s = (k + 1) * hopSize s := by ring
            _ ≤ numWindowsOf s * hopSize s := Nat.mul_le_mul_right _ hk1
        unfold unprocessedLen at hdm hge
        omega

/-- C3 counterexample: the claim fails on a reachable state.  Ingest 12
samples at time 0 into a window-4 detector, drain (cursor advances to 8),
then re-ingest a 4-sample view at time 0: now
`view_len − (cursor − view_start) = 4 − 8` is negative, so the integer
`unprocessed_len` is below `window_size` and the claim demands an empty
batch, but the Rust `usize` subtraction underflows and the drain panics
(`none`), not an empty sequence. -/
theorem claim3_counterexample :
    set_audio_samples (detState 4 0 0 []) 0 (List.replicate 12 0) =
      (detState 4 0 0 (List.replicate 12 0), none) ∧
    pitches_vec estNever (detState 4 0 0 (List.replicate 12 0)) =
      some ([], detState 4 0 8 (List.replicate 12 0)) ∧
    set_audio_samples (detState 4 0 8 (List.replicate 12 0)) 0
      (List.replicate 4 0) = (detState 4 0 8 (List.replicate 4 0), none) ∧
    pitches_vec estNever (detState 4 0 8 (List.replicate 4 0)) = none := by
  refine ⟨by rfl, ?_, by rfl, by rfl⟩
  have hd : drainLoop estNever (detState 4 0 0 (List.replicate 12 0)).params
      (detState 4 0 0 (List.replicate 12 0)).audio_samples
      ((detState 4 0 0 (List.replicate 12 0)).time_of_next_unprocessed_sample -
        (detState 4 0 0 (List.replicate 12 0)).time_of_first_sample)
      (hopSize (detState 4 0 0 (List.replicate 12 0)))
      (numWindowsOf (detState 4 0 0 (List.replicate 12 0))) 0
      (detState 4 0 0 (List.replicate 12 0)).time_of_next_unprocessed_sample
      (detState 4 0 0 (List.replicate 12 0)).current_pitch = some ([], 8, none) := by
    show drainLoop estNever (make_params 4 0 0) (List.replicate 12 (0 : Int))
      0 1 8 0 0 none = some ([], 8, none)
    iterate 8
      rw [drainLoop_step _ _ _ _ _ _ _ _ _ (by decide)]
      simp only [estNever]
    rfl
  exact pitches_vec_loop estNever (detState 4 0 0 (List.replicate 12 0)) [] 8 none
    (by decide) (by decide) (by decide) (by decide) hd

/-- C3 witness: a window-4 detector with a 4-sample view at cursor 0
satisfies all provisos; the drain succeeds with zero full hops available. -/
theorem claim3_witness :
    (unprocessedLen (detState 4 0 0 (List.replicate 4 0)) <
        (detState 4 0 0 (List.replicate 4 0)).params.window →
      pitches_vec estNever (detState 4 0 0 (List.replicate 4 0)) =
        some ([], detState 4 0 0 (List.replicate 4 0))) ∧
    ((detState 4 0 0 (List.replicate 4 0)).params.window ≤
        unprocessedLen (detState 4 0 0 (List.replicate 4 0)) →
      ∃ ps cp2, pitches_vec estNever (detState 4 0 0 (List.replicate 4 0)) =
        some (ps, { detState 4 0 0 (List.replicate 4 0) with
          time_of_next_unprocessed_sample :=
            (detState 4 0 0 (List.replicate 4 0)).time_of_next_unprocessed_sample +
              numWindowsOf (detState 4 0 0 (List.replicate 4 0)) *
                hopSize (detState 4 0 0 (List.replicate 4 0))
          current_pitch := cp2 }) ∧
        ps.length ≤ numWindowsOf (detState 4 0 0 (List.replicate 4 0)) ∧
        ∀ k, k < numWindowsOf (detState 4 0 0 (List.replicate 4 0)) →
          ((detState 4 0 0 (List.replicate 4 0)).time_of_next_unprocessed_sample -
            (detState 4 0 0 (List.replicate 4 0)).time_of_first_sample) +
            k * hopSize (detState 4 0 0 (List.replicate 4 0)) +
            (detState 4 0 0 (List.replicate 4 0)).params.window ≤
            (detState 4 0 0 (List.replicate 4 0)).audio_samples.length) :=
  claim3_window_count estNever (detState 4 0 0 (List.replicate 4 0))
    (by decide) (by decide) (by decide) (by decide)

/-- C9 (amended): when the detector's view holds fewer than `window_size`
samples — in particular before any ingest, when 0 samples are available —
`pitches()` returns the structured `not_enough_samples` result carrying
the required `window_size` and the available sample count, never an empty
success; otherwise `pitches()` returns a success result, provided
`window ≥ 4` (a window below 4 makes `hop = window / 4` zero and the
drain's division panics), `window ≤ MAX_WINDOW_SIZE`, and the cursor lies
inside the view (`view_start ≤ cursor ≤ view_start + view_len`; past the
view the drain's subtraction underflows and panics). -/
theorem claim9_not_enough_samples {α : Type} [Zero α] :
    (∀ (est : PitchEstimator α) (s : PitchDetectorState α),
      s.audio_samples.length < s.params.window →
      pitches est s = some (.fromError "not_enough_samples" s.params.window
        s.audio_samples.length, s)) ∧
    (∀ (est : PitchEstimator α) (s : PitchDetectorState α),
      s.params.window ≤ s.audio_samples.length →
      s.time_of_first_sample ≤ s.time_of_next_unprocessed_sample →
      s.time_of_next_unprocessed_sample - s.time_of_first_sample ≤
        s.audio_samples.length →
      4 ≤ s.params.window → s.params.window ≤ MAX_WINDOW_SIZE →
      ∃ ps s2, pitches est s = some (.success ps, s2)) := by
  constructor
  · intro est s h
    unfold pitches
    rw [if_pos h]
  · intro est s hw h1 h2 h4 hM
    obtain ⟨r, hr⟩ := pitches_vec_total est s h1 h2 h4 hM
    obtain ⟨ps, s2⟩ := r
    refine ⟨ps, s2, ?_⟩
    unfold pitches
    rw [if_neg (by omega), hr]
    rfl

/-- C9 counterexample: a window-2 detector (constructible, since only
`window ≤ 8192` is enforced) holding a 4-sample view has at least
`window_size` samples available, yet `pitches()` is a division-by-zero
panic (`hop = 2 / 4 = 0`), modelled as `none` — not a success result. -/
theorem claim9_counterexample :
    pitches estNever (detState 2 0 0 (List.replicate 4 0)) = none := by
  rfl

/-- C9 witness: a fresh window-4 detector with no view reports
`not_enough_samples` with required 4 and available 0; with a 4-sample view
it returns a success result. -/
theorem claim9_witness :
    pitches estNever (detState 4 0 0 []) =
      some (.fromError "not_enough_samples" 4 0, detState 4 0 0 []) ∧
    ∃ ps s2, pitches estNever (detState 4 0 0 (List.replicate 4 0)) =
      some (.success ps, s2) :=
  ⟨(claim9_not_enough_samples (α := Int)).1 estNever (detState 4 0 0 [])
      (by decide),
    (claim9_not_enough_samples (α := Int)).2 estNever
      (detState 4 0 0 (List.replicate 4 0)) (by decide) (by decide) (by decide)
      (by decide) (by decide)⟩

/-- C2: a fresh window-2048 detector (hop 512, sample rate 48000) ingesting
a 4800-sample view (100 ms at 48 kHz) at absolute time 0, with an estimator
that finds a confident pitch in every analyzed window: the drain emits
exactly 5 pitches at t = 512, 1536, 2560, 3584, 4608, the first flagged
`onset = true` and the remainder `onset = false`, and a second drain with
no new ingest yields an empty sequence. -/
theorem claim2_concrete_scenario {α : Type} [Zero α] (est : PitchEstimator α)
    (pt ct : α) (samples : List α) (s0 s1 : PitchDetectorState α)
    (hnew : PitchDetector.new (make_params 2048 pt ct) = some s0)
    (hset : set_audio_samples s0 0 samples = (s1, none))
    (hlen : samples.length = 4800)
    (hest : ∀ w, (est w (make_params 2048 pt ct).sample_rate
      (make_params 2048 pt ct).power_threshold
      (make_params 2048 pt ct).clarity_threshold none).isSome) :
    ∃ ps s2, pitches_vec est s1 = some (ps, s2) ∧
      ps.length = 5 ∧
      ps.map Pitch.t = [512, 1536, 2560, 3584, 4608] ∧
      ps.map Pitch.onset = [true, false, false, false, false] ∧
      pitches_vec est s2 = some ([], s2) := by
  obtain ⟨ps, c2, cp2, hd, ht, ho⟩ := drainLoop_allSome est
    (make_params 2048 pt ct) samples 0 512
    (by rw [show (make_params 2048 pt ct).window = 2048 from rfl]; decide)
    hest 4 0 0 none
  have key : s1.params = make_params 2048 pt ct →
      s1.time_of_first_sample = 0 → s1.time_of_next_unprocessed_sample = 0 →
      s1.current_pitch = none → s1.audio_samples = samples →
      ∃ ps s2, pitches_vec est s1 = some (ps, s2) ∧
        ps.length = 5 ∧
        ps.map Pitch.t = [512, 1536, 2560, 3584, 4608] ∧
        ps.map Pitch.onset = [true, false, false, false, false] ∧
        pitches_vec est s2 = some ([], s2) := by
    intro hp hf hc hcp hsamp
    have hwin : s1.params.window = 2048 := by
      rw [hp]
      rfl
    have hslen : s1.audio_samples.length = 4800 := by rw [hsamp, hlen]
    have hhop : hopSize s1 = 512 := by
      unfold hopSize
      rw [hp]
      norm_num [make_params]
    have hnw : numWindowsOf s1 = 5 := by
      unfold numWindowsOf unprocessedLen hopSize
      rw [hsamp, hlen, hc, hf, hp]
      norm_num [make_params]
    have hd2 : drainLoop est s1.params s1.audio_samples
        (s1.time_of_next_unprocessed_sample - s1.time_of_first_sample)
        (hopSize s1) (numWindowsOf s1) 0 s1.time_of_next_unprocessed_sample
        s1.current_pitch = some (ps, c2, cp2) := by
      rw [hp, hsamp, hf, hc, hcp, hhop, hnw]
      exact hd
    have hmain : pitches_vec est s1 = some (ps, { s1 with
        time_of_next_unprocessed_sample := c2
        current_pitch := cp2 }) :=
      pitches_vec_loop est s1 ps c2 cp2 (by omega) (by omega) (by omega)
        (by omega) hd2
    refine ⟨ps, _, hmain, ?_, ?_, ?_,
      pitches_vec_drain_drain est s1 _ ps hmain⟩
    · have := congrArg List.length ht
      simpa using this
    · rw [ht]
      decide
    · rw [ho]
      rfl
  unfold PitchDetector.new at hnew
  rw [if_neg (by rw [show (make_params 2048 pt ct).window = 2048 from rfl]; decide)] at hnew
  injection hnew with hnew
  unfold set_audio_samples at hset
  rw [if_neg (by rw [← hnew]; show ¬ samples.length < 2048; omega)] at hset
  injection hset with hset1 hset2
  exact key (by rw [← hset1, ← hnew]) (by rw [← hset1])
    (by rw [← hset1, ← hnew]; rfl) (by rw [← hset1, ← hnew])
    (by rw [← hset1])

/-- C2 witness: the scenario instantiated over `Int` samples (4800 zeros)
with an estimator that always returns frequency 220. -/
theorem claim2_witness :
    ∃ ps s2, pitches_vec (estAlways 220 1)
        (detState 2048 0 0 (List.replicate 4800 0)) = some (ps, s2) ∧
      ps.length = 5 ∧
      ps.map Pitch.t = [512, 1536, 2560, 3584, 4608] ∧
      ps.map Pitch.onset = [true, false, false, false, false] ∧
      pitches_vec (estAlways 220 1) s2 = some ([], s2) :=
  claim2_concrete_scenario (estAlways 220 1) 0 0 (List.replicate 4800 0)
    (detState 2048 0 0 []) (detState 2048 0 0 (List.replicate 4800 0))
    (by rfl)
    (by unfold set_audio_samples
        rw [if_neg (by rw [List.length_replicate]; decide)]
        rfl)
    (by rw [List.length_replicate])
    (fun w => rfl)

/-- C7: pushing any sequence of correct-size chunks into an empty sample
buffer (chunk size `c0`, capacity `K` chunks) never fails, the absolute
sample counter advances by `c0` per push, and the snapshot equals the last
`min(total_samples_pushed, K × c0)` pushed samples in push order, oldest
first — each push beyond capacity evicts exactly the oldest chunk
(wraparound included). -/
theorem claim7_ring_buffer {α : Type} (c0 K : Nat) (cs : List (List α))
    (hc : ∀ ch ∈ cs, ch.length = c0) :
    ∃ s2, pushAll (mkProc c0 K 0 []) cs = some s2 ∧
      s2.time_of_last_added_sample = cs.length * c0 ∧
      get_latest_samples s2 = cs.flatten.drop
        (cs.flatten.length - min cs.flatten.length (K * c0)) := by
  refine ⟨_, pushAll_state c0 K cs 0 [] (by simp) hc, ?_, ?_⟩
  · simp [mkProc]
  · have hflen : cs.flatten.length = cs.length * c0 :=
      flatten_length_of_chunks c0 cs hc
    unfold get_latest_samples mkProc CircularQueue.iterOldestFirst
    dsimp only
    rw [List.append_nil, List.take_reverse, List.reverse_reverse]
    rw [flatten_drop_of_chunks c0 cs (cs.length - K) hc (by omega)]
    congr 1
    rw [hflen]
    by_cases hK : cs.length ≤ K
    · have hz : cs.length - K = 0 := by omega
      rw [hz, min_eq_left (Nat.mul_le_mul_right _ hK)]
      omega
    · have hmin : min (cs.length * c0) (K * c0) = K * c0 :=
        min_eq_right (Nat.mul_le_mul_right _ (by omega))
      rw [hmin, Nat.sub_mul]

/-- C7 witness: chunk size 2, capacity 2 chunks; pushing three chunks
succeeds, evicts the oldest, and snapshots the last four samples
oldest-first. -/
theorem claim7_witness :
    ∃ s2, pushAll (mkProc 2 2 0 []) [[(1 : Int), 2], [3, 4], [5, 6]] = some s2 ∧
      s2.time_of_last_added_sample =
        ([[(1 : Int), 2], [3, 4], [5, 6]] : List (List Int)).length * 2 ∧
      get_latest_samples s2 =
        ([[(1 : Int), 2], [3, 4], [5, 6]] : List (List Int)).flatten.drop
          (([[(1 : Int), 2], [3, 4], [5, 6]] : List (List Int)).flatten.length -
            min ([[(1 : Int), 2], [3, 4], [5, 6]] : List (List Int)).flatten.length
              (2 * 2)) :=
  claim7_ring_buffer 2 2 [[(1 : Int), 2], [3, 4], [5, 6]] (by decide)
